import Mathlib

/-!
Shallow embedding of the RL trading subsystem of the TradingAgents repository
(`tradingagents/rl/`): the replay buffer (`rl_agent.py`), the reward
calculator (`rl_reward.py`), the trading environment (`rl_environment.py`)
and the state encoder (`rl_state_encoder.py`).

Python floats are modelled as rationals (`ℚ`), Python lists as Lean lists,
Python dicts as association lists.  Fallible Python code (operations that
can raise) is modelled with `Except`/`Option`.
-/

set_option maxRecDepth 10000

attribute [local semireducible] Rat.add Rat.sub Rat.mul Rat.inv Rat.ofScientific

namespace TradingAgents

/-! ## Transitions and the replay buffer (`rl_agent.py`, class `ReplayBuffer`)

A transition is the tuple `(state, action, reward, next_state, done)` pushed
by `ReplayBuffer.push`.  The buffer itself is `deque(maxlen=capacity)`: a
bounded FIFO whose `append` evicts from the left once the maximum length is
reached. -/

structure Transition where
  state : List ℚ
  action : ℕ
  reward : ℚ
  next_state : List ℚ
  done : Bool
deriving DecidableEq, Repr

namespace ReplayBuffer

/-- `deque(maxlen=capacity).append(x)`: the new element goes on the right and
enough oldest (leftmost) elements are dropped to keep the length at most the
capacity `C`. -/
def push (C : ℕ) (buf : List Transition) (x : Transition) : List Transition :=
  ((buf ++ [x]).drop ((buf.length + 1) - C))

/-- A whole sequence of `push` calls, oldest first. -/
def pushMany (C : ℕ) (buf : List Transition) (xs : List Transition) : List Transition :=
  xs.foldl (push C) buf

end ReplayBuffer

/-! ## Reward calculator (`rl_reward.py`, class `RewardCalculator`) -/

structure RewardCalculator where
  profit_reward : ℚ
  loss_penalty : ℚ
  transaction_cost : ℚ
  risk_penalty_weight : ℚ
deriving DecidableEq, Repr

/-- The constructor defaults: `profit_reward=1.0, loss_penalty=-1.0,
transaction_cost=0.01, risk_penalty_weight=0.1`. -/
def RewardCalculator.default : RewardCalculator :=
  { profit_reward := 1
    loss_penalty := -1
    transaction_cost := 1/100
    risk_penalty_weight := 1/10 }

/-- Python's built-in `abs` on a rational. -/
def pyAbs (x : ℚ) : ℚ := if x < 0 then -x else x

/-- Python's built-in two-argument `min` on rationals. -/
def pyMin (a b : ℚ) : ℚ := if a ≤ b then a else b

namespace RewardCalculator

/-- `RewardCalculator.calculate_reward`.  In Python, `entry_price = 0` on a
BUY/SELL raises `ZeroDivisionError`; in `ℚ` the division yields `0`, so the
embedding agrees with the source whenever `entry_price ≠ 0` (all claims
quantify over positive prices).  `position_size` is accepted and, as in the
source, never used. -/
def calculate_reward (rc : RewardCalculator) (action : String)
    (entry_price exit_price : ℚ) (_position_size : ℚ)
    (volatility : Option ℚ) : ℚ :=
  if action = "HOLD" then 0
  else
    let pnl : ℚ :=
      if action = "BUY" then (exit_price - entry_price) / entry_price
      else if action = "SELL" then (entry_price - exit_price) / entry_price
      else 0
    if action = "BUY" ∨ action = "SELL" then
      let reward₀ : ℚ := if pnl > 0 then rc.profit_reward else rc.loss_penalty
      let reward₁ : ℚ := reward₀ * (pyAbs pnl * 10)
      let reward₂ : ℚ := reward₁ - rc.transaction_cost
      match volatility with
      | some v => reward₂ - v * rc.risk_penalty_weight
      | none => reward₂
    else 0

/-- `RewardCalculator.calculate_options_reward`.  `greeks` is a Python dict
or `None`; note `if greeks:` is false both for `None` and for an empty
dict. -/
def calculate_options_reward (rc : RewardCalculator) (_action _strategy : String)
    (premium pnl max_loss : ℚ) (greeks : Option (List (String × ℚ))) : ℚ :=
  let reward₀ : ℚ := if pnl > 0 then rc.profit_reward else rc.loss_penalty
  let reward₁ : ℚ := if premium > 0 then reward₀ * (pyAbs pnl / premium) else reward₀
  let reward₂ : ℚ := if max_loss > 0 then reward₁ * (1 + pyAbs pnl / max_loss) else reward₁
  let reward₃ : ℚ :=
    match greeks with
    | some g =>
        if g ≠ [] then
          let afterTheta :=
            match g.lookup "theta" with
            | some θ => if θ < 0 then reward₂ - pyAbs θ * (1/10) else reward₂
            | none => reward₂
          match g.lookup "gamma" with
          | some γ => afterTheta - pyAbs γ * (5/100)
          | none => afterTheta
        else reward₂
    | none => reward₂
  reward₃ - rc.transaction_cost

/-- `RewardCalculator.calculate_sharpe_ratio_reward` with the default
`risk_free_rate = 0.02`.  `np.std` takes a square root, so the value lives in
`ℝ`; the two degenerate early returns (empty input, zero variance) are exact. -/
noncomputable def calculate_sharpe_ratio_reward (returns : List ℚ) : ℝ :=
  if returns.length = 0 then 0
  else
    let n : ℝ := returns.length
    let mean : ℝ := ((returns.map (fun x => (x : ℝ))).sum) / n
    let std : ℝ := Real.sqrt (((returns.map (fun x => ((x : ℝ) - mean) ^ 2)).sum) / n)
    if std = 0 then 0 else (mean - (2/100 : ℝ)) / std

end RewardCalculator

/-! ## State encoder (`rl_state_encoder.py`, class `StateEncoder`)

Every numeric pattern in the source has the shape
`LITERAL[:\s]+(-?\d+\.?\d*)` (one of them with a one-character class inside
the literal, one with an irrelevant optional trailing `%`), searched with
`re.search(..., re.IGNORECASE)`.  We embed exactly that: lowercase the text
once, then look for the leftmost occurrence of the literal followed by one or
more colon/whitespace characters followed by a decimal number. -/

/-- One token of a pattern: a (lowercase) literal, or a one-character class
such as `[- ]`. -/
inductive Tok
  | lit (cs : List Char)
  | one (cs : List Char)
deriving DecidableEq, Repr

/-- Python's `\s` (ASCII) together with `:`—the `[:\s]` class. -/
def sepChar (c : Char) : Bool :=
  c = ':' || c = ' ' || c = '\t' || c = '\n' || c = '\r' || c = '\x0b' || c = '\x0c'

/-- Match a literal at the head of the text, returning the rest. -/
def matchLit : List Char → List Char → Option (List Char)
  | [], s => some s
  | _ :: _, [] => Option.none
  | a :: t, c :: s => if c = a then matchLit t s else Option.none

/-- Match a token sequence at the head of the text, returning the rest. -/
def matchToks : List Tok → List Char → Option (List Char)
  | [], s => some s
  | Tok.lit l :: ts, s =>
      match matchLit l s with
      | some rest => matchToks ts rest
      | Option.none => Option.none
  | Tok.one cs :: ts, s =>
      match s with
      | [] => Option.none
      | c :: rest => if cs.contains c then matchToks ts rest else Option.none

/-- Value of a digit string (most significant first). -/
def digitsToNat (ds : List Char) : ℕ :=
  ds.foldl (fun acc c => acc * 10 + (c.toNat - '0'.toNat)) 0

/-- Parse `-?\d+\.?\d*` (the leading `-` only when `neg` is set, as in the
source's capture groups); `float` of the captured text. -/
def parseNumber (neg : Bool) (s : List Char) : Option ℚ :=
  let signed : Bool × List Char :=
    if neg then
      match s with
      | '-' :: t => (true, t)
      | _ => (false, s)
    else (false, s)
  let intDigits := signed.2.takeWhile Char.isDigit
  if intDigits = [] then Option.none
  else
    let rest := signed.2.dropWhile Char.isDigit
    let fracDigits : List Char :=
      match rest with
      | '.' :: t => t.takeWhile Char.isDigit
      | _ => []
    let q : ℚ := (digitsToNat intDigits : ℚ) +
      (digitsToNat fracDigits : ℚ) / ((10 : ℚ) ^ fracDigits.length)
    some (if signed.1 then -q else q)

/-- Match the whole pattern (tokens, then `[:\s]+`, then the number) at the
head of the text. -/
def matchPatHere (toks : List Tok) (neg : Bool) (s : List Char) : Option ℚ :=
  match matchToks toks s with
  | some rest =>
      if rest.takeWhile sepChar = ([] : List Char) then Option.none
      else parseNumber neg (rest.dropWhile sepChar)
  | Option.none => Option.none

/-- `re.search`: leftmost match wins. -/
def searchNumber (toks : List Tok) (neg : Bool) : List Char → Option ℚ
  | [] => matchPatHere toks neg []
  | c :: t =>
      match matchPatHere toks neg (c :: t) with
      | some v => some v
      | Option.none => searchNumber toks neg t

/-- A numeric field: matched value, or the 0.0 default. -/
def numField (toks : List Tok) (neg : Bool) (s : List Char) : ℚ :=
  (searchNumber toks neg s).getD 0

/-- Python's `needle in hay` on strings. -/
def containsSeq (needle : List Char) : List Char → Bool
  | [] => (matchLit needle []).isSome
  | c :: t => (matchLit needle (c :: t)).isSome || containsSeq needle t

/-- Python's `hay.count(needle)` for a non-empty needle: non-overlapping
occurrences, scanning left to right.  The fuel argument (initially the text
length) only serves structural termination: a successful match consumes at
least one character, so the text empties before the fuel does. -/
def countSeqAux (needle : List Char) : ℕ → List Char → ℕ
  | 0, _ => 0
  | _ + 1, [] => 0
  | fuel + 1, c :: t =>
      match matchLit needle (c :: t) with
      | some rest => 1 + countSeqAux needle fuel rest
      | Option.none => countSeqAux needle fuel t

/-- `hay.count(needle)`; the source only counts the non-empty needles
`'news'` and `'article'`. -/
def countSeq (needle : List Char) (s : List Char) : ℕ :=
  match needle with
  | [] => 0
  | _ :: _ => countSeqAux needle s.length s

/-- `report.lower()` as a character list (the embedding of `re.IGNORECASE`
and of the `... in report.lower()` checks, for the ASCII literals used). -/
def lowerChars (s : String) : List Char :=
  s.toList.map Char.toLower

/-- `StateEncoder._extract_technical_features`; 9 values. -/
def extractTechnicalFeatures (report : String) : List ℚ :=
  let s := lowerChars report
  [ ((searchNumber [Tok.lit "rsi".toList] false s).map (fun v => v / 100)).getD 0
  , numField [Tok.lit "macd".toList] true s
  , numField [Tok.lit "50".toList, Tok.one ['-', ' '], Tok.lit "sma".toList] false s
  , numField [Tok.lit "200".toList, Tok.one ['-', ' '], Tok.lit "sma".toList] false s
  , numField [Tok.lit "10".toList, Tok.one ['-', ' '], Tok.lit "ema".toList] false s
  , numField [Tok.lit "volume".toList] false s
  , numField [Tok.lit "volatility".toList] false s
  , numField [Tok.lit "atr".toList] false s
  , if containsSeq "bullish".toList s then 1
    else if containsSeq "bearish".toList s then -1
    else 0 ]

/-- `StateEncoder._extract_fundamental_features`; 6 values. -/
def extractFundamentalFeatures (report : String) : List ℚ :=
  let s := lowerChars report
  [ numField [Tok.lit "p/e".toList] false s
  , numField [Tok.lit "eps".toList] false s
  , numField [Tok.lit "revenue".toList] false s
  , numField [Tok.lit "profit margin".toList] false s
  , numField [Tok.lit "debt".toList] false s
  , numField [Tok.lit "roe".toList] false s ]

/-- `StateEncoder._extract_news_features`; 3 values.  The `elif` chains are
kept in source order (so "very positive" is shadowed by "positive", as in the
code). -/
def extractNewsFeatures (report : String) : List ℚ :=
  let s := lowerChars report
  [ if containsSeq "positive".toList s then 1/2
    else if containsSeq "very positive".toList s || containsSeq "bullish".toList s then 1
    else if containsSeq "negative".toList s then -(1/2)
    else if containsSeq "very negative".toList s || containsSeq "bearish".toList s then -1
    else 0
  , pyMin ((countSeq "news".toList s + countSeq "article".toList s : ℕ) / 10 : ℚ) 1
  , if containsSeq "significant".toList s || containsSeq "major".toList s then 1
    else if containsSeq "minor".toList s || containsSeq "small".toList s then 3/10
    else 1/2 ]

/-- `StateEncoder._extract_sentiment_features`; 2 values. -/
def extractSentimentFeatures (report : String) : List ℚ :=
  let s := lowerChars report
  [ if containsSeq "bullish".toList s then 7/10
    else if containsSeq "bearish".toList s then -(7/10)
    else 0
  , if containsSeq "strong".toList s then 1
    else if containsSeq "weak".toList s then 3/10
    else 1/2 ]

/-- The strategy-keyword encoding of `_extract_options_features`: first
matching keyword in source (dict) order wins, default 0.0. -/
def strategyValue (s : List Char) : ℚ :=
  let encs : List (String × ℚ) :=
    [("call", 1/10), ("put", 2/10), ("spread", 3/10), ("straddle", 4/10),
     ("strangle", 5/10), ("iron_condor", 6/10), ("covered_call", 7/10)]
  match encs.find? (fun p => containsSeq p.1.toList s) with
  | some p => p.2
  | Option.none => 0

/-- `StateEncoder._extract_options_features`; 8 values (put/call ratio
defaults to the neutral 1.0, the IV percentage is divided by 100). -/
def extractOptionsFeatures (report : String) : List ℚ :=
  let s := lowerChars report
  [ numField [Tok.lit "delta".toList] true s
  , numField [Tok.lit "gamma".toList] false s
  , numField [Tok.lit "theta".toList] true s
  , numField [Tok.lit "vega".toList] false s
  , numField [Tok.lit "rho".toList] true s
  , ((searchNumber [Tok.lit "iv".toList] false s).map (fun v => v / 100)).getD 0
  , (searchNumber [Tok.lit "put/call".toList] false s).getD 1
  , strategyValue s ]

/-- A Python value stored in the agent-state dict: a string or `None`. -/
inductive PyVal
  | none
  | str (s : String)
deriving DecidableEq, Repr

/-- A report mapping (`agent_state`): a dict from names to values. -/
abbrev AgentState := List (String × PyVal)

/-- Python's `dict.get(key, default)`. -/
def dictGet (st : AgentState) (key : String) (d : PyVal) : PyVal :=
  match st.find? (fun p => p.1 == key) with
  | some p => p.2
  | Option.none => d

/-- Fetch one group's report text: absent keys default to `""`; a key mapped
to `None` makes the extractor raise (`re.search`/`.lower()` on `None`), which
the embedding surfaces as `Option.none`. -/
def getReport (st : AgentState) (key : String) : Option String :=
  match dictGet st key (PyVal.str "") with
  | PyVal.str s => some s
  | PyVal.none => Option.none

/-- One feature group inside `encode`: extract, or propagate the
`TypeError` a `None` report causes. -/
def groupFeatures (st : AgentState) (key : String)
    (ex : String → List ℚ) : Except String (List ℚ) :=
  match getReport st key with
  | some s => Except.ok (ex s)
  | Option.none => Except.error "TypeError"

/-- `StateEncoder.encode` for a given construction-time `state_dim`:
concatenate the five group vectors (in the fixed source order), append the
trading-mode flag, then zero-pad or truncate to exactly `state_dim`. -/
def encode (state_dim : ℕ) (st : AgentState) : Except String (List ℚ) := do
  let tech ← groupFeatures st "market_report" extractTechnicalFeatures
  let fund ← groupFeatures st "fundamentals_report" extractFundamentalFeatures
  let news ← groupFeatures st "news_report" extractNewsFeatures
  let senti ← groupFeatures st "sentiment_report" extractSentimentFeatures
  let opts ← groupFeatures st "options_report" extractOptionsFeatures
  let modeFlag : ℚ :=
    if dictGet st "trading_mode" (PyVal.str "stock") = PyVal.str "options" then 1 else 0
  let features := tech ++ fund ++ news ++ senti ++ opts ++ [modeFlag]
  if features.length < state_dim then
    Except.ok (features ++ List.replicate (state_dim - features.length) 0)
  else if features.length > state_dim then
    Except.ok (features.take state_dim)
  else
    Except.ok features

/-- `StateEncoder.decode_action`.  Python indexes the literal list and would
raise `IndexError` for an out-of-range index; the embedding returns the
sentinel `"IndexError"` there (every claim quantifies over in-range
actions). -/
def decode_action (action : ℕ) (num_actions : ℕ) : String :=
  if num_actions = 3 then ["BUY", "HOLD", "SELL"].getD action "IndexError"
  else if num_actions = 5 then
    ["STRONG_BUY", "BUY", "HOLD", "SELL", "STRONG_SELL"].getD action "IndexError"
  else "HOLD"

/-! ## Trading environment (`rl_environment.py`, class `TradingEnvironment`) -/

/-- A realized trade record: `{entry, exit, pnl, reward}` in stock mode,
`{strategy, premium, pnl, reward, greeks}` in options mode. -/
inductive Trade
  | stock (entryPrice exitPrice pnl reward : ℚ)
  | options (strategy : String) (premium pnl reward : ℚ)
      (greeks : Option (List (String × ℚ)))
deriving DecidableEq, Repr

/-- `trade.get("pnl", 0)`: both record shapes carry a `pnl` key. -/
def Trade.pnl : Trade → ℚ
  | .stock _ _ p _ => p
  | .options _ _ p _ _ => p

structure TradingEnvironment where
  state_dim : ℕ
  rc : RewardCalculator
  initial_capital : ℚ
  max_steps : ℕ
  current_step : ℕ
  capital : ℚ
  position : ℤ
  entry_price : ℚ
  trade_history : List Trade
  agent_state : AgentState
deriving DecidableEq, Repr

/-- `TradingEnvironment.__init__` with the default encoder (`state_dim=128`)
and default reward calculator. -/
def TradingEnvironment.make (initial_capital : ℚ) (max_steps : ℕ) : TradingEnvironment :=
  { state_dim := 128
    rc := RewardCalculator.default
    initial_capital := initial_capital
    max_steps := max_steps
    current_step := 0
    capital := initial_capital
    position := 0
    entry_price := 0
    trade_history := []
    agent_state := [] }

namespace TradingEnvironment

/-- `TradingEnvironment.reset`: back to step 0, full capital, flat, empty
history; the optional argument replaces `agent_state` only when truthy.
Returns the updated environment and `encode(agent_state)`. -/
def reset (env : TradingEnvironment) (agent_state : Option AgentState) :
    TradingEnvironment × Except String (List ℚ) :=
  let env₁ := { env with
    current_step := 0
    capital := env.initial_capital
    position := 0
    entry_price := 0
    trade_history := [] }
  let env₂ :=
    match agent_state with
    | some a => { env₁ with agent_state := a }
    | Option.none => env₁
  (env₂, encode env₂.state_dim env₂.agent_state)

/-- `TradingEnvironment.step` (stock mode), the state mutation, reward and
termination flag.  The Python method additionally returns
`encode(self.agent_state)` (see `step_next_state`) and an `info` dict that
only re-reports fields of the returned state. -/
def step (env : TradingEnvironment) (action : ℕ) (agent_state : AgentState)
    (current_price : ℚ) : TradingEnvironment × ℚ × Bool :=
  let env₀ := { env with
    current_step := env.current_step + 1
    agent_state := agent_state }
  let action_str := decode_action action 3
  let res : TradingEnvironment × ℚ :=
    if action_str = "BUY" ∧ env₀.position = 0 then
      ({ env₀ with position := 1, entry_price := current_price }, 0)
    else if action_str = "SELL" ∧ env₀.position = 1 then
      let reward := env₀.rc.calculate_reward "BUY" env₀.entry_price current_price 1 Option.none
      let pnl := ((current_price - env₀.entry_price) / env₀.entry_price) * env₀.capital
      ({ env₀ with
          capital := env₀.capital + pnl
          trade_history := env₀.trade_history ++
            [Trade.stock env₀.entry_price current_price pnl reward]
          position := 0
          entry_price := 0 }, reward)
    else (env₀, 0)
  let env₁ := res.1
  let done : Bool :=
    decide (env₁.current_step ≥ env₁.max_steps) ||
    decide (env₁.capital ≤ 0) ||
    decide (env₁.capital ≥ env₁.initial_capital * 2)
  (env₁, res.2, done)

/-- The `next_state` component of the Python `step`/`step_options` return
value. -/
def step_next_state (env : TradingEnvironment) : Except String (List ℚ) :=
  encode env.state_dim env.agent_state

/-- `TradingEnvironment.step_options`: every call is one fully realized
options trade.  Returns (state, reward, done, `info["action"]`). -/
def step_options (env : TradingEnvironment) (action : ℕ) (agent_state : AgentState)
    (strategy : String) (premium pnl max_loss : ℚ)
    (greeks : Option (List (String × ℚ))) : TradingEnvironment × ℚ × Bool × String :=
  let env₀ := { env with
    current_step := env.current_step + 1
    agent_state := agent_state }
  let action_str := if action = 0 then "BUY" else "SELL"
  let reward := env₀.rc.calculate_options_reward action_str strategy premium pnl max_loss greeks
  let env₁ := { env₀ with
    capital := env₀.capital + pnl
    trade_history := env₀.trade_history ++
      [Trade.options strategy premium pnl reward greeks] }
  let done : Bool :=
    decide (env₁.current_step ≥ env₁.max_steps) ||
    decide (env₁.capital ≤ env₁.initial_capital * (1/2)) ||
    decide (env₁.capital ≥ env₁.initial_capital * (3/2))
  (env₁, reward, done, action_str)

/-- `TradingEnvironment.get_trade_statistics`, a Python dict modelled as an
association list.  In the non-empty branch the `win_rate` guard
`if self.trade_history else 0` is vacuous (the branch has a non-empty
history), and `np.mean` is a sum divided by a non-zero length. -/
noncomputable def get_trade_statistics (env : TradingEnvironment) : List (String × ℝ) :=
  if env.trade_history = [] then
    [("total_trades", 0), ("win_rate", 0), ("avg_profit", 0),
     ("avg_loss", 0), ("total_pnl", 0), ("sharpe_ratio", 0)]
  else
    let pnls := env.trade_history.map Trade.pnl
    let wins := pnls.filter (fun p => decide (p > 0))
    let losses := pnls.filter (fun p => decide (p < 0))
    [ ("total_trades", (env.trade_history.length : ℝ))
    , ("win_rate", (wins.length : ℝ) / (env.trade_history.length : ℝ))
    , ("avg_profit", if wins = [] then 0 else ((wins.sum : ℚ) : ℝ) / (wins.length : ℝ))
    , ("avg_loss", if losses = [] then 0 else ((losses.sum : ℚ) : ℝ) / (losses.length : ℝ))
    , ("total_pnl", ((pnls.sum : ℚ) : ℝ))
    , ("sharpe_ratio", RewardCalculator.calculate_sharpe_ratio_reward pnls)
    , ("final_capital", ((env.capital : ℚ) : ℝ))
    , ("return_pct", (((env.capital - env.initial_capital) / env.initial_capital : ℚ) : ℝ) * 100) ]

end TradingEnvironment

/-! ## DQN agent (`rl_agent.py`, class `RLTradingAgent`)

The network weights and the optimizer state live in PyTorch; they are opaque
to this repository's control flow, so they are abstracted as type parameters
`W` (a network's weights) and `O` (optimizer state), and the gradient update
of a train step as a function argument `upd`.  Everything the claims speak
about — the insufficient-data guard and the sampling contract — is decided by
the repository's own code. -/

/-- `random.sample(buffer, k)` after its length check: draw `k` distinct
positions, the randomness supplied as a stream `r` of naturals.  Each draw
removes the chosen element, so the result has no repeated positions. -/
def sampleIdx (r : ℕ → ℕ) : ℕ → List Transition → ℕ → List Transition
  | 0, _, _ => []
  | k + 1, buf, i =>
      if buf.length = 0 then []
      else
        let j := r i % buf.length
        buf.getD j ⟨[], 0, 0, [], false⟩ :: sampleIdx r k (buf.eraseIdx j) (i + 1)

namespace ReplayBuffer

/-- `ReplayBuffer.sample`: `random.sample` raises `ValueError` ("sample
larger than population") when the requested batch exceeds the buffer
length; otherwise it returns exactly `batch_size` transitions. -/
def sample (r : ℕ → ℕ) (buf : List Transition) (batch_size : ℕ) :
    Except String (List Transition) :=
  if buf.length < batch_size then Except.error "ValueError"
  else Except.ok (sampleIdx r batch_size buf 0)

end ReplayBuffer

structure RLTradingAgent (W O : Type) where
  state_dim : ℕ
  action_dim : ℕ
  gamma : ℚ
  epsilon : ℚ
  epsilon_end : ℚ
  epsilon_decay : ℚ
  batch_size : ℕ
  target_update_freq : ℕ
  policy_net : W
  target_net : W
  optimizer : O
  replay_buffer : List Transition
  training_step : ℕ
  losses : List ℚ
deriving DecidableEq

namespace RLTradingAgent

/-- `RLTradingAgent.store_experience`: forwards to `ReplayBuffer.push`
(the buffer was built with capacity `buffer_capacity`, supplied here). -/
def store_experience {W O : Type} (buffer_capacity : ℕ) (a : RLTradingAgent W O)
    (t : Transition) : RLTradingAgent W O :=
  { a with replay_buffer := ReplayBuffer.push buffer_capacity a.replay_buffer t }

/-- `RLTradingAgent.train_step`.  While the buffer holds fewer transitions
than `batch_size` it returns `None` and touches nothing.  Otherwise it
samples a batch, runs the PyTorch loss/backward/optimizer step (the opaque
`upd`, returning new policy weights, new optimizer state, and the scalar
loss), increments the step counter, syncs the target network every
`target_update_freq` steps, decays epsilon multiplicatively with floor
`epsilon_end`, and records the loss. -/
def train_step {W O : Type} (r : ℕ → ℕ)
    (upd : W → W → O → List Transition → W × O × ℚ)
    (a : RLTradingAgent W O) : Option ℚ × RLTradingAgent W O :=
  if a.replay_buffer.length < a.batch_size then (Option.none, a)
  else
    let batch := sampleIdx r a.batch_size a.replay_buffer 0
    let res := upd a.policy_net a.target_net a.optimizer batch
    let ts := a.training_step + 1
    let newTarget := if ts % a.target_update_freq = 0 then res.1 else a.target_net
    (some res.2.2,
      { a with
          policy_net := res.1
          optimizer := res.2.1
          training_step := ts
          target_net := newTarget
          epsilon := max a.epsilon_end (a.epsilon * a.epsilon_decay)
          losses := a.losses ++ [res.2.2] })

end RLTradingAgent

/-! ### Closed instances used by the claims below -/

/-- A report mapping all of whose values are actual strings (no `None`). -/
def allStringsB (st : AgentState) : Bool :=
  st.all fun p =>
    match p.2 with
    | PyVal.str _ => true
    | PyVal.none => false

/-- The stock scenario: fresh default environment, `reset`. -/
def c2Env0 : TradingEnvironment :=
  ((TradingEnvironment.make 100000 1000).reset Option.none).1

/-- `step(BUY, ..., price=100)` from the reset environment. -/
def c2Step1 : TradingEnvironment × ℚ × Bool := c2Env0.step 0 [] 100

/-- `step(SELL, ..., price=110)` after the BUY. -/
def c2Step2 : TradingEnvironment × ℚ × Bool := c2Step1.1.step 2 [] 110

/-- A freshly constructed agent (default hyperparameters, empty buffer) over
trivial weight/optimizer carriers: the concrete input of the training-guard
witness. -/
def agentUnit : RLTradingAgent Unit Unit :=
  { state_dim := 128
    action_dim := 3
    gamma := 99/100
    epsilon := 1
    epsilon_end := 1/100
    epsilon_decay := 995/1000
    batch_size := 64
    target_update_freq := 10
    policy_net := ()
    target_net := ()
    optimizer := ()
    replay_buffer := []
    training_step := 0
    losses := [] }

end TradingAgents

/-! ### Theorems about the replay buffer -/

namespace TradingAgents
namespace ReplayBuffer

theorem push_eq (C : ℕ) (buf : List Transition) (x : Transition) :
    push C buf x = (buf ++ [x]).drop ((buf ++ [x]).length - C) := by
  simp [push]

theorem pushMany_nil (C : ℕ) (buf : List Transition) : pushMany C buf [] = buf := rfl

theorem pushMany_cons (C : ℕ) (buf : List Transition) (x : Transition) (xs : List Transition) :
    pushMany C buf (x :: xs) = pushMany C (push C buf x) xs := rfl

/-- Dropping a prefix-bounded amount commutes with appending on the right. -/
theorem drop_append_of_le (k : ℕ) (l₁ l₂ : List Transition) (h : k ≤ l₁.length) :
    (l₁ ++ l₂).drop k = l₁.drop k ++ l₂ := by
  induction l₁ generalizing k with
  | nil =>
    have hk : k = 0 := Nat.le_zero.mp (by simpa using h)
    subst hk
    simp
  | cons a t ih =>
    cases k with
    | zero => simp
    | succ k =>
      simp only [List.cons_append, List.drop_succ_cons]
      exact ih k (by simpa using h)

/-- The buffer after any sequence of pushes starting from a within-capacity
buffer is the suffix of length at most `C` of the full pushed sequence. -/
theorem pushMany_eq_drop (C : ℕ) (xs : List Transition) :
    ∀ buf : List Transition, buf.length ≤ C →
      pushMany C buf xs = (buf ++ xs).drop ((buf ++ xs).length - C) := by
  induction xs with
  | nil =>
    intro buf hb
    have : buf.length - C = 0 := by omega
    simp [pushMany, this]
  | cons x xs ih =>
    intro buf hb
    rw [pushMany_cons]
    have hlen : (push C buf x).length ≤ C := by
      simp only [push, List.length_drop, List.length_append, List.length_cons,
        List.length_nil]
      omega
    rw [ih (push C buf x) hlen]
    have hk : (buf.length + 1) - C ≤ (buf ++ [x]).length := by
      simp only [List.length_append, List.length_cons, List.length_nil]
      omega
    have hsplit : push C buf x ++ xs =
        ((buf ++ [x]) ++ xs).drop ((buf.length + 1) - C) := by
      rw [push, drop_append_of_le _ _ _ hk]
    rw [hsplit, List.drop_drop]
    have harr : buf ++ x :: xs = (buf ++ [x]) ++ xs := by simp
    rw [harr]
    congr 1
    simp only [List.length_append, List.length_drop, List.length_cons, List.length_nil]
    omega

end ReplayBuffer

/-! ### Helper lemmas for the encoder -/

/-- Per-group feature counts are fixed by construction, independent of the
report text. -/
theorem extractTechnicalFeatures_length (s : String) :
    (extractTechnicalFeatures s).length = 9 := rfl

theorem extractFundamentalFeatures_length (s : String) :
    (extractFundamentalFeatures s).length = 6 := rfl

theorem extractNewsFeatures_length (s : String) :
    (extractNewsFeatures s).length = 3 := rfl

theorem extractSentimentFeatures_length (s : String) :
    (extractSentimentFeatures s).length = 2 := rfl

theorem extractOptionsFeatures_length (s : String) :
    (extractOptionsFeatures s).length = 8 := rfl

theorem getReport_eq_some (st : AgentState) (k : String)
    (h : allStringsB st = true) : ∃ s, getReport st k = some s := by
  unfold getReport dictGet
  cases hf : st.find? (fun p => p.1 == k) with
  | none => exact ⟨"", rfl⟩
  | some p =>
    have hmem : p ∈ st := List.mem_of_find?_eq_some hf
    have hp := List.all_eq_true.mp h p hmem
    cases hv : p.2 with
    | none => rw [hv] at hp; simp at hp
    | str s => exact ⟨s, by simp [hv]⟩

/-- On a mapping with string-valued reports, `encode` succeeds and its output
is the 29 raw features (5 groups plus the mode flag) zero-padded or truncated
to the requested `state_dim`. -/
theorem encode_spec (st : AgentState) (h : allStringsB st = true) :
    ∃ feats : List ℚ, feats.length = 29 ∧
      ∀ sd : ℕ, encode sd st =
        Except.ok (if 29 < sd then feats ++ List.replicate (sd - 29) 0
                   else feats.take sd) := by
  obtain ⟨s₁, h₁⟩ := getReport_eq_some st "market_report" h
  obtain ⟨s₂, h₂⟩ := getReport_eq_some st "fundamentals_report" h
  obtain ⟨s₃, h₃⟩ := getReport_eq_some st "news_report" h
  obtain ⟨s₄, h₄⟩ := getReport_eq_some st "sentiment_report" h
  obtain ⟨s₅, h₅⟩ := getReport_eq_some st "options_report" h
  set flag : ℚ :=
    if dictGet st "trading_mode" (PyVal.str "stock") = PyVal.str "options" then 1 else 0 with hflag
  refine ⟨extractTechnicalFeatures s₁ ++ extractFundamentalFeatures s₂ ++
      extractNewsFeatures s₃ ++ extractSentimentFeatures s₄ ++
      extractOptionsFeatures s₅ ++ [flag], ?_, ?_⟩
  · simp [extractTechnicalFeatures_length, extractFundamentalFeatures_length,
      extractNewsFeatures_length, extractSentimentFeatures_length,
      extractOptionsFeatures_length]
  · intro sd
    have hlen : (extractTechnicalFeatures s₁ ++ extractFundamentalFeatures s₂ ++
        extractNewsFeatures s₃ ++ extractSentimentFeatures s₄ ++
        extractOptionsFeatures s₅ ++ [flag]).length = 29 := by
      simp [extractTechnicalFeatures_length, extractFundamentalFeatures_length,
        extractNewsFeatures_length, extractSentimentFeatures_length,
        extractOptionsFeatures_length]
    simp only [encode, groupFeatures, h₁, h₂, h₃, h₄, h₅, bind, Except.bind, ← hflag, hlen]
    rcases Nat.lt_trichotomy 29 sd with hc | hc | hc
    · simp [hc, Nat.lt_asymm hc]
    · subst hc
      simp [List.take_of_length_le, extractTechnicalFeatures_length,
        extractFundamentalFeatures_length, extractNewsFeatures_length,
        extractSentimentFeatures_length, extractOptionsFeatures_length]
    · have : ¬ (29 < sd) := by omega
      simp [hc, this]

/-- Sampling with a batch no larger than the buffer yields exactly the
requested number of transitions. -/
theorem sampleIdx_length (r : ℕ → ℕ) :
    ∀ (k : ℕ) (buf : List Transition) (i : ℕ), k ≤ buf.length →
      (sampleIdx r k buf i).length = k := by
  intro k
  induction k with
  | zero => intro buf i _; rfl
  | succ k ih =>
    intro buf i hk
    have hpos : ¬ (buf.length = 0) := by omega
    have hj : r i % buf.length < buf.length := Nat.mod_lt _ (by omega)
    simp only [sampleIdx, hpos, if_false, List.length_cons]
    rw [ih (buf.eraseIdx (r i % buf.length)) (i + 1) ?_]
    rw [List.length_eraseIdx, if_pos hj]
    omega

/-! ### The claims -/

/-- C1: for every push sequence into a capacity-`C` replay buffer starting
empty, the length never exceeds `C`; the content is always exactly the suffix
of the pushed sequence of length at most `C` (the most recent pushes, oldest
evicted first); and once more than `C` transitions have been pushed the
length is exactly `C`. -/
theorem claim_c1_ring_buffer (C : ℕ) (xs : List Transition) :
    (ReplayBuffer.pushMany C [] xs).length ≤ C ∧
    ReplayBuffer.pushMany C [] xs = xs.drop (xs.length - C) ∧
    (C < xs.length → (ReplayBuffer.pushMany C [] xs).length = C) := by
  have h := ReplayBuffer.pushMany_eq_drop C xs [] (by simp)
  simp only [List.nil_append] at h
  refine ⟨?_, h, fun hlt => ?_⟩
  · rw [h, List.length_drop]; omega
  · rw [h, List.length_drop]; omega

/-- C1 witness: capacity 2, three pushes; the buffer holds exactly the last
two transitions and has length 2. -/
theorem claim_c1_ring_buffer_witness :
    (2 : ℕ) < 3 ∧
    ReplayBuffer.pushMany 2 []
        [⟨[], 0, 1, [], false⟩, ⟨[], 0, 2, [], false⟩, ⟨[], 0, 3, [], false⟩] =
      [⟨[], 0, 2, [], false⟩, ⟨[], 0, 3, [], false⟩] ∧
    (ReplayBuffer.pushMany 2 []
        [⟨[], 0, 1, [], false⟩, ⟨[], 0, 2, [], false⟩, ⟨[], 0, 3, [], false⟩]).length = 2 := by
  have h := claim_c1_ring_buffer 2
    [⟨[], 0, 1, [], false⟩, ⟨[], 0, 2, [], false⟩, ⟨[], 0, 3, [], false⟩]
  exact ⟨by decide, by rw [h.2.1]; decide, h.2.2 (by decide)⟩

/-- C2: in stock mode from a reset environment with initial capital 100000,
`step(BUY, price=100)` opens a long at entry 100 with reward exactly 0, and
the following `step(SELL, price=110)` yields a strictly positive reward, sets
capital to exactly 110000, appends exactly one trade record, and returns the
position to flat. -/
theorem claim_c2_stock_scenario :
    c2Step1.2.1 = 0 ∧ c2Step1.1.position = 1 ∧ c2Step1.1.entry_price = 100 ∧
    c2Step2.2.1 > 0 ∧ c2Step2.1.capital = 110000 ∧
    c2Step2.1.trade_history.length = 1 ∧ c2Step2.1.position = 0 := by
  decide

/-- C3: a stock-mode step reports done exactly when the incremented step
counter has reached the step budget, or capital ≤ 0, or capital has reached
twice the initial capital; an options-mode step reports done exactly when the
budget is reached, or capital ≤ 50% of initial, or capital ≥ 150% of
initial. -/
theorem claim_c3_done_conditions :
    (∀ (env : TradingEnvironment) (action : ℕ) (ast : AgentState) (price : ℚ),
      action < 3 →
      ((env.step action ast price).2.2 = true ↔
        ((env.step action ast price).1.current_step ≥ env.max_steps ∨
         (env.step action ast price).1.capital ≤ 0 ∨
         (env.step action ast price).1.capital ≥ env.initial_capital * 2))) ∧
    (∀ (env : TradingEnvironment) (action : ℕ) (ast : AgentState) (strategy : String)
        (premium pnl max_loss : ℚ) (greeks : Option (List (String × ℚ))),
      ((env.step_options action ast strategy premium pnl max_loss greeks).2.2.1 = true ↔
        ((env.step_options action ast strategy premium pnl max_loss greeks).1.current_step ≥
            env.max_steps ∨
         (env.step_options action ast strategy premium pnl max_loss greeks).1.capital ≤
            env.initial_capital * (1/2) ∨
         (env.step_options action ast strategy premium pnl max_loss greeks).1.capital ≥
            env.initial_capital * (3/2)))) := by
  constructor
  · intro env action ast price _h
    simp only [TradingEnvironment.step]
    split
    · simp [or_assoc]
    · split <;> simp [or_assoc]
  · intro env action ast strategy premium pnl max_loss greeks
    simp [TradingEnvironment.step_options, or_assoc]

/-- C3 witness: with a one-step budget the very first step is done (the
counter reaches the budget). -/
theorem claim_c3_done_conditions_witness :
    ((TradingEnvironment.make 100000 1).step 1 [] 50).2.2 = true := by
  refine (claim_c3_done_conditions.1 (TradingEnvironment.make 100000 1) 1 [] 50
    (by decide)).mpr (Or.inl ?_)
  decide

/-- C4 counterexample: a report mapping where a group's report is `None`
makes `encode` raise (`re.search`/`.lower()` on `None` is a `TypeError`), so
"encode never raises for every report mapping, including None" is false as
stated. -/
theorem claim_c4_counterexample :
    encode 128 [("market_report", PyVal.none)] = Except.error "TypeError" := rfl

/-- C4 (amended): for every report mapping whose report values are strings
(a group's text may be empty, and missing keys default to the empty string),
`encode` never fails; each group's feature-vector length is a
construction-time constant (9/6/3/2/8) independent of the data, and on an
empty report each group yields its default vector — regex-extracted numeric
fields 0.0, the ratio-like put/call field 1.0. -/
theorem claim_c4_encode_never_fails :
    (∀ s : String,
      (extractTechnicalFeatures s).length = 9 ∧
      (extractFundamentalFeatures s).length = 6 ∧
      (extractNewsFeatures s).length = 3 ∧
      (extractSentimentFeatures s).length = 2 ∧
      (extractOptionsFeatures s).length = 8) ∧
    (extractTechnicalFeatures "" = [0, 0, 0, 0, 0, 0, 0, 0, 0] ∧
     extractFundamentalFeatures "" = [0, 0, 0, 0, 0, 0] ∧
     extractNewsFeatures "" = [0, 0, 1/2] ∧
     extractSentimentFeatures "" = [0, 1/2] ∧
     extractOptionsFeatures "" = [0, 0, 0, 0, 0, 0, 1, 0]) ∧
    (∀ st : AgentState, allStringsB st = true →
      ∃ v, encode 128 st = Except.ok v ∧ v.length = 128) := by
  refine ⟨fun s => ⟨rfl, rfl, rfl, rfl, rfl⟩, by decide, fun st h => ?_⟩
  obtain ⟨feats, hlen, henc⟩ := encode_spec st h
  refine ⟨feats ++ List.replicate (128 - 29) 0, ?_, ?_⟩
  · rw [henc 128]; simp
  · simp [hlen]

/-- C4 witness: the length constants at a sample report, and success of
`encode` on a mapping with an empty-string report. -/
theorem claim_c4_encode_never_fails_witness :
    (extractTechnicalFeatures "hello").length = 9 ∧
    ∃ v, encode 128 [("market_report", PyVal.str "")] = Except.ok v ∧ v.length = 128 :=
  ⟨(claim_c4_encode_never_fails.1 "hello").1,
   claim_c4_encode_never_fails.2.2 [("market_report", PyVal.str "")] (by decide)⟩

/-- C5: on every string-valued report mapping `encode` is a pure function of
its input which always returns exactly `state_dim` values: the 29 raw
features (the concatenated groups plus the mode flag) right-padded with zeros
when `state_dim` exceeds 29 and truncated to the first `state_dim` entries
otherwise. -/
theorem claim_c5_encode_length (st : AgentState) (h : allStringsB st = true) :
    ∃ feats : List ℚ, feats.length = 29 ∧
      (∀ sd : ℕ, encode sd st =
        Except.ok (if 29 < sd then feats ++ List.replicate (sd - 29) 0
                   else feats.take sd)) ∧
      (∀ sd : ℕ, ∃ v, encode sd st = Except.ok v ∧ v.length = sd) := by
  obtain ⟨feats, hlen, henc⟩ := encode_spec st h
  refine ⟨feats, hlen, henc, fun sd => ?_⟩
  refine ⟨_, henc sd, ?_⟩
  by_cases hc : 29 < sd
  · simp [hc, hlen]; omega
  · simp [hc, hlen]; omega

/-- C5 witness: the empty mapping (all reports default to `""`) yields a
128-value vector at the default `state_dim`. -/
theorem claim_c5_encode_length_witness :
    ∃ v, encode 128 [] = Except.ok v ∧ v.length = 128 := by
  obtain ⟨feats, _hlen, _henc, hv⟩ := claim_c5_encode_length [] (by decide)
  exact hv 128

/-- C6: a training step with fewer buffered transitions than `batch_size`
returns no loss and leaves the agent (weights, optimizer, epsilon, step
counter, buffer, loss log) completely unchanged; `sample` on such a buffer
always reports the insufficient-data error, and on a sufficient buffer it
always returns exactly `batch_size` transitions — never partial data. -/
theorem claim_c6_train_step_guard :
    (∀ (W O : Type) (r : ℕ → ℕ) (upd : W → W → O → List Transition → W × O × ℚ)
        (a : RLTradingAgent W O),
      a.replay_buffer.length < a.batch_size →
      RLTradingAgent.train_step r upd a = (Option.none, a)) ∧
    (∀ (r : ℕ → ℕ) (buf : List Transition) (k : ℕ),
      buf.length < k → ReplayBuffer.sample r buf k = Except.error "ValueError") ∧
    (∀ (r : ℕ → ℕ) (buf : List Transition) (k : ℕ),
      k ≤ buf.length →
      ∃ b, ReplayBuffer.sample r buf k = Except.ok b ∧ b.length = k) := by
  refine ⟨fun W O r upd a h => ?_, fun r buf k h => ?_, fun r buf k h => ?_⟩
  · simp [RLTradingAgent.train_step, h]
  · simp [ReplayBuffer.sample, h]
  · refine ⟨sampleIdx r k buf 0, ?_, sampleIdx_length r k buf 0 h⟩
    simp [ReplayBuffer.sample, Nat.not_lt.mpr h]

/-- C6 witness: a fresh agent (empty buffer, batch 64) trains as a no-op;
sampling 3 from an empty buffer errors; sampling 1 from a singleton returns
exactly 1 transition. -/
theorem claim_c6_train_step_guard_witness :
    RLTradingAgent.train_step (fun _ => 0) (fun p _ o _ => (p, o, 0)) agentUnit =
      (Option.none, agentUnit) ∧
    ReplayBuffer.sample (fun _ => 0) [] 3 = Except.error "ValueError" ∧
    ∃ b, ReplayBuffer.sample (fun _ => 0) [⟨[], 0, 0, [], false⟩] 1 = Except.ok b ∧
      b.length = 1 :=
  ⟨claim_c6_train_step_guard.1 Unit Unit _ _ agentUnit (by decide),
   claim_c6_train_step_guard.2.1 _ [] 3 (by decide),
   claim_c6_train_step_guard.2.2 _ [⟨[], 0, 0, [], false⟩] 1 (by decide)⟩

/-- C7 counterexample: on an empty trade history `get_trade_statistics` omits
the `final_capital` and `return_pct` keys entirely (the early-return dict has
only six entries), so the claim that it returns zero-valued defaults for
*every* promised statistic including final capital and return percentage is
false as stated. -/
theorem claim_c7_counterexample :
    (TradingEnvironment.get_trade_statistics
        (TradingEnvironment.make 100000 1000)).lookup "final_capital" = Option.none ∧
    (TradingEnvironment.get_trade_statistics
        (TradingEnvironment.make 100000 1000)).lookup "return_pct" = Option.none := by
  constructor <;> rfl

/-- C7 (amended): on an empty trade history `get_trade_statistics` returns
exactly the six-entry dict `total_trades=0, win_rate=0.0, avg_profit=0.0,
avg_loss=0.0, total_pnl=0.0, sharpe_ratio=0.0` — well-defined zero defaults
with no division — while the `final_capital` and `return_pct` keys are
absent. -/
theorem claim_c7_empty_statistics (env : TradingEnvironment)
    (h : env.trade_history = []) :
    TradingEnvironment.get_trade_statistics env =
      [("total_trades", 0), ("win_rate", 0), ("avg_profit", 0),
       ("avg_loss", 0), ("total_pnl", 0), ("sharpe_ratio", 0)] ∧
    (TradingEnvironment.get_trade_statistics env).lookup "final_capital" = Option.none ∧
    (TradingEnvironment.get_trade_statistics env).lookup "return_pct" = Option.none := by
  have hd : TradingEnvironment.get_trade_statistics env =
      [("total_trades", 0), ("win_rate", 0), ("avg_profit", 0),
       ("avg_loss", 0), ("total_pnl", 0), ("sharpe_ratio", 0)] := by
    simp [TradingEnvironment.get_trade_statistics, h]
  refine ⟨hd, ?_, ?_⟩ <;> rw [hd] <;> rfl

/-- C7 witness: the fresh default environment has an empty trade history and
gets the six zero-valued statistics. -/
theorem claim_c7_empty_statistics_witness :
    TradingEnvironment.get_trade_statistics (TradingEnvironment.make 100000 500) =
      [("total_trades", 0), ("win_rate", 0), ("avg_profit", 0),
       ("avg_loss", 0), ("total_pnl", 0), ("sharpe_ratio", 0)] :=
  (claim_c7_empty_statistics (TradingEnvironment.make 100000 500) rfl).1

/-- C9: a break-even directional trade is classified as a loss: with the
default calculator and no volatility, `calculate_reward("BUY", p, p)` and
`calculate_reward("SELL", p, p)` take the loss-penalty branch (the profit
branch needs pnl strictly positive) and return exactly minus the transaction
cost, −1/100, not 0. -/
theorem claim_c9_breakeven_is_loss (p : ℚ) (_hp : 0 < p) :
    RewardCalculator.default.calculate_reward "BUY" p p 1 Option.none = -(1/100) ∧
    RewardCalculator.default.calculate_reward "SELL" p p 1 Option.none = -(1/100) := by
  constructor <;>
    simp [RewardCalculator.calculate_reward, RewardCalculator.default, pyAbs]

/-- C9 witness at entry = exit = 100. -/
theorem claim_c9_breakeven_is_loss_witness :
    RewardCalculator.default.calculate_reward "BUY" 100 100 1 Option.none = -(1/100) ∧
    RewardCalculator.default.calculate_reward "SELL" 100 100 1 Option.none = -(1/100) :=
  claim_c9_breakeven_is_loss 100 (by norm_num)

/-- C10: `step_options` maps action 0 to BUY and every other action
(including 1, nominally HOLD) to SELL, and has no no-op: every call
increments the step counter, adds the supplied pnl to capital, and appends
exactly one trade record. -/
theorem claim_c10_step_options_no_hold (env : TradingEnvironment) (action : ℕ)
    (ast : AgentState) (strategy : String) (premium pnl max_loss : ℚ)
    (greeks : Option (List (String × ℚ))) :
    (env.step_options action ast strategy premium pnl max_loss greeks).2.2.2 =
      (if action = 0 then "BUY" else "SELL") ∧
    (env.step_options action ast strategy premium pnl max_loss greeks).1.current_step =
      env.current_step + 1 ∧
    (env.step_options action ast strategy premium pnl max_loss greeks).1.capital =
      env.capital + pnl ∧
    (env.step_options action ast strategy premium pnl max_loss greeks).1.trade_history.length =
      env.trade_history.length + 1 := by
  refine ⟨rfl, rfl, rfl, ?_⟩
  simp [TradingEnvironment.step_options]

end TradingAgents
